import Mathlib

/-!
# HTTP Requester: URL splitting, request execution and run statistics

A shallow embedding of `main.cpp`.  C++ strings are lists of characters, `int`
values are integers together with explicit range checks, and every way in which
an execution leaves defined behaviour (or dies from an uncaught exception) is a
`Fault` returned through `Except`.
-/

namespace HTTPRequester

/-! ## Machine-level conventions -/

/-- Abnormal ends of an execution: an uncaught exception or undefined behaviour. -/
inductive Fault
  /-- The exception `std::out_of_range` thrown by `std::string::substr`; nothing
  catches it. -/
  | outOfRange
  /-- An index outside `[0, size())` given to `vector::operator[]`. -/
  | indexOutOfBounds
  /-- A store outside `char buffer[BUFFERSIZE]`. -/
  | bufferOverrun
  /-- An `int` operation whose mathematical result is not representable. -/
  | signedOverflow
  /-- Integer division by zero. -/
  | divideByZero
  deriving DecidableEq, Repr

instance instDecidableEqResult {α : Type} [DecidableEq α] : DecidableEq (Except Fault α) :=
  fun a b =>
    match a, b with
    | .ok x, .ok y =>
      if h : x = y then isTrue (by rw [h]) else isFalse (fun e => h (by cases e; rfl))
    | .error x, .error y =>
      if h : x = y then isTrue (by rw [h]) else isFalse (fun e => h (by cases e; rfl))
    | .ok _, .error _ => isFalse (fun e => by cases e)
    | .error _, .ok _ => isFalse (fun e => by cases e)

/-- A C++ `std::string`, as its sequence of characters. -/
abbrev Str := List Char

/-- Largest `int`. -/
def INT_MAX : Int := 2147483647

/-- Smallest `int`. -/
def INT_MIN : Int := -2147483648

/-- The value `std::string::npos` (the largest `size_t`). -/
def npos : Nat := 2 ^ 64 - 1

/-- Conversion of an integral value to `int`: reduction modulo `2^32` into
`[-2^31, 2^31)`. -/
def toInt (x : Int) : Int := (x + 2 ^ 31) % 2 ^ 32 - 2 ^ 31

/-- Conversion of an `int` to `size_t`: reduction modulo `2^64`. -/
def toSizeT (x : Int) : Nat := (x % 2 ^ 64).toNat

/-- The result of an `int` computation: the value when representable, undefined
behaviour otherwise. -/
def checkInt (x : Int) : Except Fault Int :=
  if INT_MIN ≤ x ∧ x ≤ INT_MAX then .ok x else .error .signedOverflow

/-- Addition of two `int`s. -/
def addInt (a b : Int) : Except Fault Int := checkInt (a + b)

/-- Multiplication of two `int`s. -/
def mulInt (a b : Int) : Except Fault Int := checkInt (a * b)

/-- Division of two `int`s: truncation toward zero, undefined for a zero divisor. -/
def divInt (a b : Int) : Except Fault Int :=
  if b = 0 then .error .divideByZero else checkInt (Int.tdiv a b)

/-! ## `std::string` operations -/

/-- Position of the first occurrence of `c`, if any. -/
def findIdx (c : Char) : Str → Option Nat
  | [] => none
  | x :: xs => if x = c then some 0 else (findIdx c xs).map (· + 1)

/-- The method `s.find(c)`: position of the first `c`, or `npos`. -/
def find (s : Str) (c : Char) : Nat := (findIdx c s).getD npos

/-- The method `s.substr(pos, len)`: throws when `pos > s.size()`, otherwise the
characters `[pos, min(pos + len, size))`. -/
def substr (s : Str) (pos len : Nat) : Except Fault Str :=
  if pos > s.length then .error .outOfRange else .ok ((s.drop pos).take len)

/-- The method `s.erase(pos, len)`: throws when `pos > s.size()`, otherwise
removes the characters `[pos, min(pos + len, size))`. -/
def erase (s : Str) (pos len : Nat) : Except Fault Str :=
  if pos > s.length then .error .outOfRange else .ok (s.take pos ++ (s.drop pos).drop len)

/-- The constructor `string(const char*)`: the characters before the first NUL. -/
def cstr (bytes : List Char) : Str := bytes.takeWhile (· ≠ '\x00')

/-- The expression `s[0]` on a `std::string`: the first character, and the
terminating NUL when `s` is empty. -/
def front (s : Str) : Char := s.headD '\x00'

/-! ## `splitURL` (lines 113-130) -/

/-- The function `splitURL`: `charURL` is the text of the C string passed in;
the result is the pair `(host, path)` written through the two references.
The index returned by `find` is kept in an `int` and converted back to
`size_t` for the comparison and the two `substr` calls. -/
def splitURL (charURL : Str) : Except Fault (Str × Str) := do
  let url := charURL
  let url ← if (← substr url 0 7) = "http://".toList then erase url 0 7 else pure url
  let url ← if (← substr url 0 8) = "https://".toList then erase url 0 8 else pure url
  let delimiterIndex : Int := toInt (find url '/')
  if toSizeT delimiterIndex < url.length then
    let host ← substr url 0 (toSizeT delimiterIndex)
    let path ← substr url (toSizeT delimiterIndex) npos
    pure (host, path)
  else
    pure (url, [])

/-! ## `makeHTTPRequest` (lines 132-226) -/

/-- The macro `HTTPREQUEST(host, path)` of line 11, with its operands in the
order the `+` chain evaluates them. -/
def HTTPREQUEST (host path : Str) : Str :=
  "GET /".toList ++ path ++ " HTTP/1.0\r\nHost: ".toList ++ host ++
    "\r\nConnection: close\r\n\r\n".toList

/-- The capacity of the response buffer (line 12). -/
def BUFFERSIZE : Nat := 10000

/-- One entry of the list returned by `getaddrinfo`: whether `socket` and then
`connect` succeed for it. -/
structure AddrInfo where
  socketOk : Bool
  connectOk : Bool
  deriving DecidableEq, Repr

/-- What the peer delivers to the single `recv` call: an error, or the bytes
that are available to be read. -/
inductive Incoming
  | error
  | data (bytes : List Char)
  deriving DecidableEq, Repr

/-- Everything the outside world decides for one request. -/
structure Network where
  /-- Result of `getaddrinfo`: `none` for a non-zero return value. -/
  servinfo : Option (List AddrInfo)
  /-- Microseconds between the two clock readings, already as an `int`. -/
  duration : Int
  /-- What `recv` finds on the socket. -/
  incoming : Incoming
  deriving DecidableEq, Repr

/-- The variables `makeHTTPRequest` updates through its reference parameters. -/
structure Stats where
  successes : Int
  smallestResponseByte : Int
  largestResponseByte : Int
  errorCodes : Finset Str
  times : List Int
  fastestTime : Int
  slowestTime : Int
  deriving DecidableEq

/-- The loop of lines 160-173: the first candidate for which both `socket` and
`connect` succeed; `none` when `ptr` runs off the end of the list. -/
def connectFirst : List AddrInfo → Option AddrInfo
  | [] => none
  | ptr :: next =>
    if ptr.socketOk = false then connectFirst next
    else if ptr.connectOk = false then connectFirst next
    else some ptr

/-- The call `recv(sockfd, buffer, len, 0)`: `-1` on error, otherwise at most
`len` of the available bytes are stored and their number is returned. -/
def recv (incoming : Incoming) (len : Nat) : Int × List Char :=
  match incoming with
  | .error => (-1, [])
  | .data bytes => (((bytes.take len).length : Int), bytes.take len)

/-- The statement `buffer[i] = 0` on `char buffer[BUFFERSIZE]` holding the
received bytes. -/
def terminate (received : List Char) (i : Int) : Except Fault (List Char) :=
  if 0 ≤ i ∧ i < (BUFFERSIZE : Int) then .ok (received.take i.toNat ++ ['\x00'])
  else .error .bufferOverrun

/-- The function `makeHTTPRequest`.  Line 150 hands `&url[0]` to `splitURL`,
the C string at the start of `url`.  The message `HTTPREQUEST(host, path)` is
what `send` transmits; the answer of the peer is `net.incoming`.  The counter
`successes` is incremented at most once per iteration of a loop bounded by an
`int`, so the increment is taken in the integers. -/
def makeHTTPRequest (url : Str) (net : Network) (st : Stats) : Except Fault Stats := do
  let (_host, _path) ← splitURL (cstr url)
  match net.servinfo with
  | none => pure st
  | some servinfo =>
    match connectFirst servinfo with
    | none => pure st
    | some _ =>
      let (bytesReceived, received) := recv net.incoming BUFFERSIZE
      let duration := net.duration
      let st := { st with
        fastestTime := min duration st.fastestTime
        slowestTime := max duration st.slowestTime
        times := st.times ++ [duration] }
      if bytesReceived = -1 then pure st
      else
        let buffer ← terminate received bytesReceived
        let st := { st with
          successes := st.successes + 1
          smallestResponseByte := min bytesReceived st.smallestResponseByte
          largestResponseByte := max bytesReceived st.largestResponseByte }
        let errorCode ← substr (cstr buffer) 9 3
        if front errorCode = '4' ∨ front errorCode = '5' then
          pure { st with errorCodes := insert errorCode st.errorCodes }
        else pure st

/-- The value of `msg` in `makeHTTPRequest` (lines 149-150 and 193): the
template applied to the host and path that `splitURL` returns for `&url[0]`,
the C string at the start of `url`. -/
def requestMessage (url : Str) : Except Fault Str := do
  let (host, path) ← splitURL (cstr url)
  pure (HTTPREQUEST host path)

/-! ## `repeatRequests` (lines 229-274) -/

/-- The initial values of lines 235-244. -/
def initialStats : Stats where
  successes := 0
  smallestResponseByte := 10000
  largestResponseByte := 0
  errorCodes := ∅
  times := []
  fastestTime := INT_MAX
  slowestTime := 0

/-- The loop of lines 246-248, started at iteration `i` with `k` iterations
left; `net j` is what the outside world decides for iteration `j`. -/
def requestLoop (url : Str) (net : Nat → Network) : Nat → Nat → Stats → Except Fault Stats
  | _, 0, st => pure st
  | i, k + 1, st => do
    let st ← makeHTTPRequest url (net i) st
    requestLoop url net (i + 1) k st

/-- The library call `sort(times.begin(), times.end())`: the ascending
rearrangement of the vector. -/
def sort (times : List Int) : List Int := times.insertionSort (· ≤ ·)

/-- The expression `times[i]` with an `int` index on a `vector<int>`. -/
def vectorAt (times : List Int) (i : Int) : Except Fault Int :=
  if 0 ≤ i ∧ i < (times.length : Int) then .ok (times.getD i.toNat 0)
  else .error .indexOutOfBounds

/-- The call `accumulate(first, last, init)` with an `int` accumulator. -/
def accumulate : List Int → Int → Except Fault Int
  | [], acc => pure acc
  | t :: ts, acc => do
    let acc ← addInt acc t
    accumulate ts acc

/-- Lines 250-257: the median of the collected times. -/
def medianTime (times : List Int) : Except Fault Int := do
  let times := sort times
  let n : Int := toInt times.length
  if Int.tmod n 2 = 0 then
    let lo ← vectorAt times (Int.tdiv n 2 - 1)
    let hi ← vectorAt times (Int.tdiv n 2)
    divInt (← addInt lo hi) 2
  else
    vectorAt times (Int.tdiv n 2)

/-- Line 258: the mean of the collected times. -/
def meanTime (times : List Int) : Except Fault Int := do
  let times := sort times
  let n : Int := toInt times.length
  divInt (← accumulate times 0) n

/-- The expression printed at line 266. -/
def successPercentage (successes numRequests : Int) : Except Fault Int := do
  mulInt (← divInt successes numRequests) 100

/-- The figures printed by lines 260-273. -/
structure Report where
  numRequests : Int
  fastestTime : Int
  slowestTime : Int
  meanTime : Int
  medianTime : Int
  percentage : Int
  smallestResponseByte : Int
  largestResponseByte : Int
  errorCodes : Finset Str
  deriving DecidableEq

/-- The function `repeatRequests`. -/
def repeatRequests (url : Str) (repeat_ : Int) (net : Nat → Network) : Except Fault Report := do
  let numRequests := repeat_
  let st ← requestLoop url net 0 repeat_.toNat initialStats
  let medianTime ← medianTime st.times
  let meanTime ← meanTime st.times
  let percentage ← successPercentage st.successes numRequests
  pure {
    numRequests := numRequests
    fastestTime := st.fastestTime
    slowestTime := st.slowestTime
    meanTime := meanTime
    medianTime := medianTime
    percentage := percentage
    smallestResponseByte := st.smallestResponseByte
    largestResponseByte := st.largestResponseByte
    errorCodes := st.errorCodes }

/-! ## Definitions used to state and prove the properties -/

/-- The part of `splitURL` after the scheme prefixes are removed. -/
def splitRest (url : Str) : Except Fault (Str × Str) :=
  if toSizeT (toInt (find url '/')) < url.length then
    (substr url 0 (toSizeT (toInt (find url '/')))).bind fun host =>
      (substr url (toSizeT (toInt (find url '/'))) npos).bind fun path => pure (host, path)
  else
    pure (url, [])

/-- The removal of one scheme prefix `pre` of length `n`, as `splitURL` does it. -/
def strip (pre : Str) (n : Nat) (url : Str) : Str :=
  if url.take n = pre then url.drop n else url

/-- A peer that resolves to one reachable address and answers `text` after
`duration` microseconds. -/
def answering (duration : Int) (text : Str) : Network :=
  ⟨some [⟨true, true⟩], duration, .data text⟩

/-- A host name that `getaddrinfo` cannot resolve. -/
def unresolvable : Network := ⟨none, 0, .error⟩

/-- A host whose only address refuses the connection. -/
def refusing : Network := ⟨some [⟨true, false⟩], 0, .error⟩

/-- A peer that is reached but whose `recv` fails after `duration` microseconds. -/
def resetting (duration : Int) : Network := ⟨some [⟨true, true⟩], duration, .error⟩

/-- The statistics after a request that connected and read `bytes`, in terms
of the status text `code` that was extracted. -/
def afterRead (st : Stats) (duration : Int) (bytes : List Char) (code : Str) : Stats where
  successes := st.successes + 1
  smallestResponseByte := min (bytes.length : Int) st.smallestResponseByte
  largestResponseByte := max (bytes.length : Int) st.largestResponseByte
  errorCodes :=
    if front code = '4' ∨ front code = '5' then insert code st.errorCodes else st.errorCodes
  times := st.times ++ [duration]
  fastestTime := min duration st.fastestTime
  slowestTime := max duration st.slowestTime

/-- The three characters at offsets 9 to 11 of a response. -/
def statusAt (bytes : List Char) : Str := (bytes.drop 9).take 3

/-- Whether the character at offset 9 of a response is `4` or `5`. -/
def isErrorStatus (bytes : List Char) : Prop := bytes[9]? = some '4' ∨ bytes[9]? = some '5'

instance instDecidableIsErrorStatus (bytes : List Char) : Decidable (isErrorStatus bytes) := by
  unfold isErrorStatus
  exact inferInstance

/-- The set the specification names for the responses `resp 0, ..., resp (n - 1)`:
the status texts of those responses whose status starts with `4` or `5`. -/
def claimedErrorCodes (resp : Nat → List Char) (n : Nat) : Finset Str :=
  ((Finset.range n).filter (fun i => isErrorStatus (resp i))).image (fun i => statusAt (resp i))

/-- The answer of a server that does not know the resource. -/
def notFound : List Char := "HTTP/1.1 404 Not Found\r\n\r\n".toList

/-! ## Auxiliary facts -/

theorem toInt_of_small (x : Nat) (h : x < 2 ^ 31) : toInt (x : Int) = x := by
  unfold toInt
  omega

theorem toSizeT_natCast (x : Nat) (h : x < 2 ^ 31) : toSizeT (x : Int) = x := by
  unfold toSizeT
  omega

theorem toSizeT_toInt_npos : toSizeT (toInt (npos : Nat)) = npos := by decide

theorem take_length_takeWhile (p : Char → Bool) (l : Str) :
    l.take (l.takeWhile p).length = l.takeWhile p := by
  induction l with
  | nil => rfl
  | cons x xs ih =>
    by_cases hx : p x = true
    · simp [List.takeWhile_cons, hx, ih]
    · simp [List.takeWhile_cons, hx]

theorem drop_length_takeWhile (p : Char → Bool) (l : Str) :
    l.drop (l.takeWhile p).length = l.dropWhile p := by
  induction l with
  | nil => rfl
  | cons x xs ih =>
    by_cases hx : p x = true
    · simp [List.takeWhile_cons, List.dropWhile_cons, hx, ih]
    · simp [List.takeWhile_cons, List.dropWhile_cons, hx]

theorem findIdx_eq (c : Char) (s : Str) :
    findIdx c s =
      if (s.takeWhile (· ≠ c)).length < s.length then some (s.takeWhile (· ≠ c)).length
      else none := by
  induction s with
  | nil => rfl
  | cons x xs ih =>
    by_cases hx : x = c
    · simp [findIdx, List.takeWhile_cons, hx]
    · simp only [findIdx, hx, if_false, ih, List.takeWhile_cons, ne_eq, not_false_eq_true,
        decide_True, if_true, List.length_cons, Nat.add_lt_add_iff_right]
      split <;> simp

theorem substr_zero (s : Str) (n : Nat) : substr s 0 n = .ok (s.take n) := by
  simp [substr]

theorem erase_zero (s : Str) (n : Nat) : erase s 0 n = .ok (s.drop n) := by
  simp [erase]

theorem ok_bind {α β : Type} (a : α) (f : α → Except Fault β) :
    (Except.ok a >>= f) = f a := rfl

theorem strip_pos (pre : Str) (n : Nat) (url : Str) (h : url.take n = pre) :
    strip pre n url = url.drop n := if_pos h

theorem strip_neg (pre : Str) (n : Nat) (url : Str) (h : ¬ url.take n = pre) :
    strip pre n url = url := if_neg h

theorem splitURL_eq (u : Str) :
    splitURL u = splitRest (strip "https://".toList 8 (strip "http://".toList 7 u)) := by
  unfold splitURL
  simp only [substr_zero, erase_zero]
  by_cases h7 : u.take 7 = "http://".toList
  · rw [strip_pos _ _ _ h7]
    change (if u.take 7 = "http://".toList then _ else _) = _
    rw [if_pos h7]
    change (if (u.drop 7).take 8 = "https://".toList then _ else _) = _
    by_cases h8 : (u.drop 7).take 8 = "https://".toList
    · rw [strip_pos _ _ _ h8, if_pos h8]; rfl
    · rw [strip_neg _ _ _ h8, if_neg h8]; rfl
  · rw [strip_neg _ _ _ h7]
    change (if u.take 7 = "http://".toList then _ else _) = _
    rw [if_neg h7]
    change (if u.take 8 = "https://".toList then _ else _) = _
    by_cases h8 : u.take 8 = "https://".toList
    · rw [strip_pos _ _ _ h8, if_pos h8]; rfl
    · rw [strip_neg _ _ _ h8, if_neg h8]; rfl

theorem find_eq (s : Str) (c : Char) :
    find s c =
      if (s.takeWhile (· ≠ c)).length < s.length then (s.takeWhile (· ≠ c)).length
      else npos := by
  unfold find
  rw [findIdx_eq]
  split <;> rfl

theorem splitRest_eq (url : Str) (h : url.length < 2 ^ 31) :
    splitRest url = .ok (url.takeWhile (· ≠ '/'), url.dropWhile (· ≠ '/')) := by
  have hk := find_eq url '/'
  have htake := take_length_takeWhile (· ≠ '/') url
  have hdrop := drop_length_takeWhile (· ≠ '/') url
  generalize (url.takeWhile (· ≠ '/')).length = k at hk htake hdrop
  by_cases hlt : k < url.length
  · rw [if_pos hlt] at hk
    have hidx : toSizeT (toInt (find url '/')) = k := by
      rw [hk, toInt_of_small k (by omega), toSizeT_natCast k (by omega)]
    have hsub : substr url k npos = .ok (url.drop k) := by
      unfold substr
      rw [if_neg (by omega), List.take_of_length_le]
      simp only [List.length_drop, npos]
      omega
    unfold splitRest
    rw [hidx, if_pos hlt, substr_zero, hsub, htake, hdrop]
    rfl
  · rw [if_neg hlt] at hk
    have hidx : toSizeT (toInt (find url '/')) = npos := by
      rw [hk]; exact toSizeT_toInt_npos
    have hnp : ¬ npos < url.length := by
      simp only [npos]; omega
    unfold splitRest
    rw [hidx, if_neg hnp, ← htake, ← hdrop, List.take_of_length_le (by omega),
      List.drop_of_length_le (by omega)]
    rfl

theorem not_mem_takeWhile_ne (c : Char) (l : Str) : c ∉ l.takeWhile (· ≠ c) := by
  intro hmem
  have := List.mem_takeWhile_imp hmem
  simp at this

theorem dropWhile_ne_shape (c : Char) (l : Str) :
    l.dropWhile (· ≠ c) = [] ∨ ∃ rest, l.dropWhile (· ≠ c) = c :: rest := by
  induction l with
  | nil => exact Or.inl rfl
  | cons x xs ih =>
    by_cases hx : x = c
    · right; exact ⟨xs, by simp [List.dropWhile_cons, hx]⟩
    · simpa [List.dropWhile_cons, hx] using ih

theorem takeWhile_dropWhile_all (p : Char → Bool) (l : Str) (h : ∀ x ∈ l, p x = true) :
    l.takeWhile p = l ∧ l.dropWhile p = [] := by
  induction l with
  | nil => exact ⟨rfl, rfl⟩
  | cons x xs ih =>
    have hx : p x = true := h x (List.mem_cons_self x xs)
    have hxs := ih (fun y hy => h y (List.mem_cons_of_mem x hy))
    simp only [List.takeWhile_cons, List.dropWhile_cons, hx, if_true, hxs.1, hxs.2, and_self]

theorem takeWhile_dropWhile_stop (p : Char → Bool) (a b : Str) (c : Char)
    (h : ∀ x ∈ a, p x = true) (hc : p c = false) :
    (a ++ c :: b).takeWhile p = a ∧ (a ++ c :: b).dropWhile p = c :: b := by
  induction a with
  | nil =>
    simp only [List.nil_append, List.takeWhile_cons, List.dropWhile_cons, hc, Bool.false_eq_true,
      if_false, and_self]
  | cons x xs ih =>
    have hx : p x = true := h x (List.mem_cons_self x xs)
    have hxs := ih (fun y hy => h y (List.mem_cons_of_mem x hy))
    simp only [List.cons_append, List.takeWhile_cons, List.dropWhile_cons, hx, if_true, hxs.1,
      hxs.2, and_self]

theorem ne_of_not_mem (c : Char) (l : Str) (h : c ∉ l) : ∀ x ∈ l, decide (x ≠ c) = true := by
  intro x hx
  have : x ≠ c := fun e => h (e ▸ hx)
  simpa using this

theorem takeWhile_dropWhile_of_not_mem (c : Char) (l : Str) (h : c ∉ l) :
    l.takeWhile (· ≠ c) = l ∧ l.dropWhile (· ≠ c) = [] :=
  takeWhile_dropWhile_all _ l (ne_of_not_mem c l h)

theorem takeWhile_dropWhile_of_split (c : Char) (a b : Str) (h : c ∉ a) :
    (a ++ c :: b).takeWhile (· ≠ c) = a ∧ (a ++ c :: b).dropWhile (· ≠ c) = c :: b :=
  takeWhile_dropWhile_stop _ a b c (ne_of_not_mem c a h) (by simp)

theorem take_ne_of_no_scheme (pre r : Str) (h : ¬ pre <+: r) : ¬ r.take pre.length = pre := by
  intro e
  apply h
  refine ⟨r.drop pre.length, ?_⟩
  conv_lhs => rw [← e]
  rw [List.length_take_of_le, List.take_append_drop]
  by_contra hlt
  rw [List.take_of_length_le (by omega)] at e
  rw [e] at hlt
  omega

/-- The scheme prefixes are removed and nothing else, for each of the three
spellings of a URL whose remainder `r` carries no scheme. -/
theorem strip_schemes (p r : Str)
    (hp : p = [] ∨ p = "http://".toList ∨ p = "https://".toList)
    (h1 : ¬ "http://".toList <+: r) (h2 : ¬ "https://".toList <+: r) :
    strip "https://".toList 8 (strip "http://".toList 7 (p ++ r)) = r := by
  have n1 : ¬ r.take 7 = "http://".toList := take_ne_of_no_scheme _ r h1
  have n2 : ¬ r.take 8 = "https://".toList := take_ne_of_no_scheme _ r h2
  rcases hp with rfl | rfl | rfl
  · rw [List.nil_append, strip_neg _ _ _ n1, strip_neg _ _ _ n2]
  · have e : ("http://".toList ++ r).take 7 = "http://".toList := List.take_left' rfl
    have d : ("http://".toList ++ r).drop 7 = r := List.drop_left' rfl
    rw [strip_pos _ _ _ e, d, strip_neg _ _ _ n2]
  · have e7 : ¬ ("https://".toList ++ r).take 7 = "http://".toList := by
      rw [List.take_append_of_le_length (by decide)]
      decide
    have e8 : ("https://".toList ++ r).take 8 = "https://".toList := List.take_left' rfl
    have d : ("https://".toList ++ r).drop 8 = r := List.drop_left' rfl
    rw [strip_neg _ _ _ e7, strip_pos _ _ _ e8, d]

theorem splitRest_total (url : Str) : ∃ hp, splitRest url = .ok hp := by
  unfold splitRest
  by_cases h : toSizeT (toInt (find url '/')) < url.length
  · rw [if_pos h, substr_zero]
    have hsub : substr url (toSizeT (toInt (find url '/'))) npos =
        .ok ((url.drop (toSizeT (toInt (find url '/')))).take npos) := by
      unfold substr
      rw [if_neg (by omega)]
    rw [hsub]
    exact ⟨_, rfl⟩
  · rw [if_neg h]
    exact ⟨_, rfl⟩

/-- The function `splitURL` returns a pair for every input: no call in it throws. -/
theorem splitURL_total (url : Str) : ∃ hp, splitURL url = .ok hp := by
  rw [splitURL_eq]
  exact splitRest_total _

theorem recv_full_buffer (bytes : List Char) (h : BUFFERSIZE ≤ bytes.length) :
    recv (.data bytes) BUFFERSIZE = ((BUFFERSIZE : Int), bytes.take BUFFERSIZE) := by
  unfold recv
  simp only [List.length_take, Nat.min_eq_left h]

theorem recv_data (bytes : List Char) (h : bytes.length ≤ BUFFERSIZE) :
    recv (.data bytes) BUFFERSIZE = ((bytes.length : Int), bytes) := by
  simp only [recv, List.take_of_length_le h]

theorem terminate_length (bytes : List Char) (h : bytes.length < BUFFERSIZE) :
    terminate bytes (bytes.length : Int) = .ok (bytes ++ ['\x00']) := by
  unfold terminate
  rw [if_pos ⟨by omega, by omega⟩, Int.toNat_natCast, List.take_length]

theorem cstr_terminated (bytes : List Char) : cstr (bytes ++ ['\x00']) = cstr bytes := by
  unfold cstr
  induction bytes with
  | nil => rfl
  | cons x xs ih =>
    by_cases hx : x = '\x00'
    · simp [List.takeWhile_cons, hx]
    · simp only [List.cons_append, List.takeWhile_cons, ih]

theorem makeHTTPRequest_read (url : Str) (st : Stats) (servinfo : List AddrInfo) (ptr : AddrInfo)
    (duration : Int) (bytes : List Char) (hc : connectFirst servinfo = some ptr)
    (hb : bytes.length < BUFFERSIZE) :
    makeHTTPRequest url ⟨some servinfo, duration, .data bytes⟩ st =
      (substr (cstr bytes) 9 3).map (afterRead st duration bytes) := by
  obtain ⟨⟨host, path⟩, hs⟩ := splitURL_total (cstr url)
  have hne : ¬ ((bytes.length : Int) = -1) := by omega
  unfold makeHTTPRequest
  rw [hs]
  dsimp only [ok_bind]
  rw [hc]
  dsimp only
  rw [recv_data bytes (by omega)]
  dsimp only
  rw [if_neg hne, terminate_length bytes hb, ok_bind, cstr_terminated]
  cases substr (cstr bytes) 9 3 with
  | error e => rfl
  | ok code =>
    rw [ok_bind]
    unfold afterRead
    by_cases hcode : front code = '4' ∨ front code = '5'
    · rw [if_pos hcode]; simp only [Except.map, if_pos hcode]; rfl
    · rw [if_neg hcode]; simp only [Except.map, if_neg hcode]; rfl

theorem substr_cstr_status (bytes : List Char) (h : 12 ≤ (cstr bytes).length) :
    substr (cstr bytes) 9 3 = .ok (statusAt bytes) := by
  obtain ⟨t, ht⟩ : ∃ t, cstr bytes ++ t = bytes :=
    ⟨_, List.takeWhile_append_dropWhile (· ≠ '\x00') bytes⟩
  have h9 : 9 ≤ (cstr bytes).length := by omega
  have h3 : 3 ≤ ((cstr bytes).drop 9).length := by
    rw [List.length_drop]; omega
  unfold substr statusAt
  rw [if_neg (by omega)]
  congr 1
  conv_rhs => rw [← ht, List.drop_append_of_le_length h9, List.take_append_of_le_length h3]

theorem front_statusAt (bytes : List Char) (c : Char) (h : 12 ≤ bytes.length) :
    front (statusAt bytes) = c ↔ bytes[9]? = some c := by
  unfold front statusAt
  have h9 : 9 < bytes.length := by omega
  have hd : (List.take 3 (List.drop 9 bytes)).head? = bytes[9]? := by
    rw [List.head?_take, if_neg (by decide), List.head?_drop]
  rw [← hd]
  cases hl : List.take 3 (List.drop 9 bytes) with
  | nil =>
    have : (List.take 3 (List.drop 9 bytes)).length = 3 := by
      rw [List.length_take, List.length_drop]; omega
    rw [hl] at this
    simp at this
  | cons x xs => simp

theorem length_cstr_le (bytes : List Char) : (cstr bytes).length ≤ bytes.length := by
  have h := congrArg List.length (List.takeWhile_append_dropWhile (· ≠ '\x00') bytes)
  rw [List.length_append] at h
  unfold cstr
  omega

/-- One request that connects and reads a response whose text has at least
twelve characters adds the status text to the set exactly when it starts with
`4` or `5`. -/
theorem makeHTTPRequest_codes (url : Str) (st : Stats) (servinfo : List AddrInfo)
    (ptr : AddrInfo) (duration : Int) (bytes : List Char)
    (hc : connectFirst servinfo = some ptr) (hb : bytes.length < BUFFERSIZE)
    (ht : 12 ≤ (cstr bytes).length) :
    ∃ st', makeHTTPRequest url ⟨some servinfo, duration, .data bytes⟩ st = .ok st' ∧
      st'.errorCodes =
        if isErrorStatus bytes then insert (statusAt bytes) st.errorCodes else st.errorCodes := by
  have hl : 12 ≤ bytes.length := le_trans ht (length_cstr_le bytes)
  refine ⟨afterRead st duration bytes (statusAt bytes), ?_, ?_⟩
  · rw [makeHTTPRequest_read url st servinfo ptr duration bytes hc hb, substr_cstr_status bytes ht]
    rfl
  · unfold afterRead isErrorStatus
    simp only [front_statusAt bytes _ hl]

theorem requestLoop_codes (url : Str) (net : Nat → Network) (resp : Nat → List Char) :
    ∀ (k i : Nat) (st : Stats),
      (∀ j, i ≤ j → j < i + k → ∃ servinfo ptr duration, connectFirst servinfo = some ptr ∧
        net j = ⟨some servinfo, duration, .data (resp j)⟩) →
      (∀ j, i ≤ j → j < i + k → (resp j).length < BUFFERSIZE) →
      (∀ j, i ≤ j → j < i + k → 12 ≤ (cstr (resp j)).length) →
      ∃ st', requestLoop url net i k st = .ok st' ∧
        ∀ x, x ∈ st'.errorCodes ↔
          x ∈ st.errorCodes ∨ ∃ j, i ≤ j ∧ j < i + k ∧ isErrorStatus (resp j) ∧
            statusAt (resp j) = x := by
  intro k
  induction k with
  | zero =>
    intro i st _ _ _
    refine ⟨st, rfl, fun x => ?_⟩
    constructor
    · exact Or.inl
    · rintro (h | ⟨j, h1, h2, _⟩)
      · exact h
      · omega
  | succ k ih =>
    intro i st hnet hlen htext
    obtain ⟨servinfo, ptr, duration, hc, hi⟩ := hnet i le_rfl (by omega)
    obtain ⟨st1, hst1, hcodes1⟩ := makeHTTPRequest_codes url st servinfo ptr duration (resp i) hc
      (hlen i le_rfl (by omega)) (htext i le_rfl (by omega))
    obtain ⟨st2, hst2, hcodes2⟩ := ih (i + 1) st1
      (fun j h1 h2 => hnet j (by omega) (by omega))
      (fun j h1 h2 => hlen j (by omega) (by omega))
      (fun j h1 h2 => htext j (by omega) (by omega))
    refine ⟨st2, ?_, fun x => ?_⟩
    · show (makeHTTPRequest url (net i) st >>= fun st => requestLoop url net (i + 1) k st) = _
      rw [hi, hst1, ok_bind, hst2]
    · rw [hcodes2 x, hcodes1]
      constructor
      · rintro (h | ⟨j, h1, h2, h3, h4⟩)
        · by_cases he : isErrorStatus (resp i)
          · rw [if_pos he, Finset.mem_insert] at h
            rcases h with h | h
            · exact Or.inr ⟨i, le_rfl, by omega, he, h.symm⟩
            · exact Or.inl h
          · rw [if_neg he] at h
            exact Or.inl h
        · exact Or.inr ⟨j, by omega, by omega, h3, h4⟩
      · rintro (h | ⟨j, h1, h2, h3, h4⟩)
        · left
          by_cases he : isErrorStatus (resp i)
          · rw [if_pos he]; exact Finset.mem_insert_of_mem h
          · rw [if_neg he]; exact h
        · by_cases hj : j = i
          · left
            subst hj
            rw [if_pos h3, ← h4]
            exact Finset.mem_insert_self _ _
          · exact Or.inr ⟨j, by omega, by omega, h3, h4⟩

theorem sort_eq_of_sorted_perm (times sorted : List Int) (hs : sorted.Sorted (· ≤ ·))
    (hp : sorted.Perm times) : sort times = sorted :=
  List.eq_of_perm_of_sorted ((List.perm_insertionSort _ times).trans hp.symm)
    (List.sorted_insertionSort _ times) hs

theorem checkInt_ok (x : Int) (h0 : 0 ≤ x) (h1 : x ≤ INT_MAX) : checkInt x = .ok x := by
  unfold checkInt
  rw [if_pos ⟨by unfold INT_MIN; omega, h1⟩]

theorem vectorAt_ok (l : List Int) (i : Nat) (h : i < l.length) :
    vectorAt l (i : Int) = .ok (l.getD i 0) := by
  unfold vectorAt
  rw [if_pos ⟨by omega, by omega⟩, Int.toNat_natCast]

theorem divInt_ok (a b : Int) (ha : 0 ≤ a) (ha' : a ≤ INT_MAX) (hb : 0 < b) :
    divInt a b = .ok (a / b) := by
  unfold divInt
  rw [if_neg (by omega), Int.tdiv_eq_ediv ha (by omega)]
  apply checkInt_ok
  · exact Int.ediv_nonneg ha (by omega)
  · exact le_trans (Int.ediv_le_self b ha) ha'

theorem accumulate_ok (l : List Int) :
    ∀ acc : Int, 0 ≤ acc → (∀ t ∈ l, 0 ≤ t) → acc + l.sum ≤ INT_MAX →
      accumulate l acc = .ok (acc + l.sum) := by
  induction l with
  | nil => intro acc _ _ _; simp [accumulate]; rfl
  | cons t ts ih =>
    intro acc hacc hnn hsum
    have ht : 0 ≤ t := hnn t (List.mem_cons_self t ts)
    have hts : ∀ x ∈ ts, 0 ≤ x := fun x hx => hnn x (List.mem_cons_of_mem t hx)
    have hs0 : 0 ≤ ts.sum := List.sum_nonneg hts
    rw [List.sum_cons] at hsum
    have hstep : addInt acc t = .ok (acc + t) := checkInt_ok _ (by omega) (by omega)
    show (addInt acc t >>= fun acc => accumulate ts acc) = _
    rw [hstep, ok_bind, ih (acc + t) (by omega) hts (by omega), List.sum_cons, add_assoc]

/-- The mean is the truncated quotient of sum and count whenever the sum of the
samples is representable as an `int`. -/
theorem meanTime_of_small_sum (times : List Int) (hne : times ≠ [])
    (hlen : times.length < 2 ^ 31) (hnn : ∀ t ∈ times, 0 ≤ t) (hsum : times.sum ≤ INT_MAX) :
    meanTime times = .ok (times.sum / times.length) := by
  have hperm := List.perm_insertionSort (· ≤ ·) times
  have hlen' : (sort times).length = times.length := hperm.length_eq
  have hsum' : (sort times).sum = times.sum := hperm.sum_eq
  have hnn' : ∀ t ∈ sort times, 0 ≤ t := fun t ht => hnn t (hperm.subset ht)
  have hpos : 0 < times.length := List.length_pos.mpr hne
  have hacc := accumulate_ok (sort times) 0 le_rfl hnn' (by rw [zero_add, hsum']; exact hsum)
  rw [zero_add, hsum'] at hacc
  unfold meanTime
  dsimp only
  rw [hacc, ok_bind, hlen', toInt_of_small _ hlen]
  exact divInt_ok _ _ (List.sum_nonneg hnn) hsum (by omega)

theorem getD_nonneg_of_mem (l : List Int) (i : Nat) (h : i < l.length)
    (hnn : ∀ t ∈ l, 0 ≤ t) : 0 ≤ l.getD i 0 := by
  rw [List.getD_eq_getElem l 0 h]
  exact hnn _ (List.getElem_mem h)

/-- The median is the middle element of the ascending rearrangement for an odd
count, and the truncated average of the two middle elements for an even count
whenever their sum is representable as an `int`. -/
theorem medianTime_of_sorted (times sorted : List Int) (hne : times ≠ [])
    (hlen : times.length < 2 ^ 31) (hnn : ∀ t ∈ times, 0 ≤ t)
    (hs : sorted.Sorted (· ≤ ·)) (hp : sorted.Perm times) :
    (times.length % 2 = 1 →
      medianTime times = .ok (sorted.getD (times.length / 2) 0)) ∧
    (times.length % 2 = 0 →
      sorted.getD (times.length / 2 - 1) 0 + sorted.getD (times.length / 2) 0 ≤ INT_MAX →
      medianTime times =
        .ok ((sorted.getD (times.length / 2 - 1) 0 + sorted.getD (times.length / 2) 0) / 2)) := by
  have hsort := sort_eq_of_sorted_perm times sorted hs hp
  have hl : sorted.length = times.length := hp.length_eq
  have hpos : 0 < times.length := List.length_pos.mpr hne
  have hnn' : ∀ t ∈ sorted, 0 ≤ t := fun t ht => hnn t (hp.subset ht)
  have hmod : Int.tmod (times.length : Int) 2 = ((times.length % 2 : Nat) : Int) := by
    rw [Int.tmod_eq_emod (by omega) (by omega)]; omega
  have hdiv : Int.tdiv (times.length : Int) 2 = ((times.length / 2 : Nat) : Int) := by
    rw [Int.tdiv_eq_ediv (by omega) (by omega)]; omega
  constructor
  · intro hodd
    unfold medianTime
    dsimp only
    rw [hsort, hl, toInt_of_small _ hlen, hmod, hdiv, if_neg (by omega)]
    exact vectorAt_ok sorted _ (by omega)
  · intro heven hsum
    have hlow : ((times.length / 2 : Nat) : Int) - 1 = ((times.length / 2 - 1 : Nat) : Int) := by
      omega
    have h0 := getD_nonneg_of_mem sorted (times.length / 2 - 1) (by omega) hnn'
    have h1 := getD_nonneg_of_mem sorted (times.length / 2) (by omega) hnn'
    unfold medianTime
    dsimp only
    rw [hsort, hl, toInt_of_small _ hlen, hmod, hdiv, if_pos (by omega), hlow,
      vectorAt_ok sorted _ (by omega), ok_bind, vectorAt_ok sorted _ (by omega), ok_bind]
    have hadd : addInt (sorted.getD (times.length / 2 - 1) 0) (sorted.getD (times.length / 2) 0) =
        .ok (sorted.getD (times.length / 2 - 1) 0 + sorted.getD (times.length / 2) 0) :=
      checkInt_ok _ (by omega) hsum
    rw [hadd, ok_bind]
    exact divInt_ok _ _ (by omega) hsum (by omega)

/-- For a success count between zero and the number of requests, the printed
percentage is 100 when every request succeeded and 0 otherwise. -/
theorem successPercentage_all_or_nothing (s n : Int) (hs : 0 ≤ s) (hsn : s ≤ n) (hn : 1 ≤ n)
    (hmax : n ≤ INT_MAX) :
    successPercentage s n = .ok (if s = n then 100 else 0) := by
  unfold successPercentage
  rw [divInt_ok s n hs (by omega) (by omega)]
  show mulInt (s / n) 100 = _
  unfold mulInt
  by_cases h : s = n
  · rw [if_pos h, h, Int.ediv_self (by omega)]
    rfl
  · rw [if_neg h, Int.ediv_eq_zero_of_lt hs (by omega)]
    rfl

/-- A request that connects and reads fewer than nine characters of text ends
in the `std::out_of_range` thrown by `substr(9, 3)`. -/
theorem makeHTTPRequest_text_below_nine (url : Str) (st : Stats) (servinfo : List AddrInfo)
    (ptr : AddrInfo) (duration : Int) (bytes : List Char)
    (hc : connectFirst servinfo = some ptr) (hb : bytes.length < BUFFERSIZE)
    (ht : (cstr bytes).length < 9) :
    makeHTTPRequest url ⟨some servinfo, duration, .data bytes⟩ st = .error .outOfRange := by
  rw [makeHTTPRequest_read url st servinfo ptr duration bytes hc hb]
  unfold substr
  rw [if_pos (by omega)]
  rfl

/-- A request that connects and reads at least nine characters of text returns
normally and is counted as a success with its byte count folded into the
smallest and largest trackers. -/
theorem makeHTTPRequest_text_from_nine (url : Str) (st : Stats) (servinfo : List AddrInfo)
    (ptr : AddrInfo) (duration : Int) (bytes : List Char)
    (hc : connectFirst servinfo = some ptr) (hb : bytes.length < BUFFERSIZE)
    (ht : 9 ≤ (cstr bytes).length) :
    ∃ st', makeHTTPRequest url ⟨some servinfo, duration, .data bytes⟩ st = .ok st' ∧
      st'.successes = st.successes + 1 ∧
      st'.smallestResponseByte = min (bytes.length : Int) st.smallestResponseByte ∧
      st'.largestResponseByte = max (bytes.length : Int) st.largestResponseByte := by
  refine ⟨afterRead st duration bytes (((cstr bytes).drop 9).take 3), ?_, rfl, rfl, rfl⟩
  rw [makeHTTPRequest_read url st servinfo ptr duration bytes hc hb]
  unfold substr
  rw [if_neg (by omega)]
  rfl

/-- A request that fails at address resolution or finds no address to connect
to leaves every statistic as it was. -/
theorem makeHTTPRequest_abort (url : Str) (net : Network) (st : Stats)
    (h : net.servinfo = none ∨
      ∃ servinfo, net.servinfo = some servinfo ∧ connectFirst servinfo = none) :
    makeHTTPRequest url net st = .ok st := by
  obtain ⟨⟨host, path⟩, hs⟩ := splitURL_total (cstr url)
  unfold makeHTTPRequest
  rw [hs]
  dsimp only [ok_bind]
  rcases h with h | ⟨servinfo, h, hc⟩
  · rw [h]; rfl
  · rw [h]
    dsimp only
    rw [hc]
    rfl

theorem requestLoop_abort (url : Str) (net : Nat → Network)
    (h : ∀ j, (net j).servinfo = none ∨
      ∃ servinfo, (net j).servinfo = some servinfo ∧ connectFirst servinfo = none) :
    ∀ (k i : Nat) (st : Stats), requestLoop url net i k st = .ok st := by
  intro k
  induction k with
  | zero => intro i st; rfl
  | succ k ih =>
    intro i st
    show (makeHTTPRequest url (net i) st >>= fun st => requestLoop url net (i + 1) k st) = _
    rw [makeHTTPRequest_abort url (net i) st (h i), ok_bind, ih]

/-- A run in which every request aborts before the timer starts ends in the
out-of-bounds read of line 253, for every requested count. -/
theorem repeatRequests_abort (url : Str) (repeat_ : Int) (net : Nat → Network)
    (h : ∀ j, (net j).servinfo = none ∨
      ∃ servinfo, (net j).servinfo = some servinfo ∧ connectFirst servinfo = none) :
    repeatRequests url repeat_ net = .error .indexOutOfBounds := by
  unfold repeatRequests
  dsimp only
  rw [requestLoop_abort url net h, ok_bind]
  rfl

/-- The four sample URLs of the splitter, and a bare host split again. -/
theorem splitURL_examples :
    splitURL "http://a.com/x".toList = .ok ("a.com".toList, "/x".toList) ∧
    splitURL "https://a.com".toList = .ok ("a.com".toList, []) ∧
    splitURL "a.com/x/y".toList = .ok ("a.com".toList, "/x/y".toList) ∧
    splitURL "a.com".toList = .ok ("a.com".toList, []) := by
  decide

/-! ## The claims -/

/-! ### C1: the contract of `splitURL` -/

/-- Claim C1: for a remainder `r` that does not begin with `http://` or `https://`
and each prefix `p` among `""`, `"http://"` and `"https://"`, `splitURL (p ++ r)`
returns a host and a path with `host ++ path = r`, no `/` in the host, and a path
that is empty or starts with `/`; the host is `r` and the path empty when `r` has
no `/`, and otherwise they are the parts of `r` before and from its first `/`.
The index of the `/` is held in an `int`, so the URL is taken shorter than `2^31`
characters, as every command-line argument is. -/
theorem splitURL_contract (p r : Str)
    (hp : p = [] ∨ p = "http://".toList ∨ p = "https://".toList)
    (h1 : ¬ "http://".toList <+: r) (h2 : ¬ "https://".toList <+: r)
    (hlen : (p ++ r).length < 2 ^ 31) :
    ∃ host path, splitURL (p ++ r) = .ok (host, path) ∧
      host ++ path = r ∧ '/' ∉ host ∧ (path = [] ∨ ∃ rest, path = '/' :: rest) ∧
      ('/' ∉ r → host = r ∧ path = []) ∧
      (∀ a b, r = a ++ '/' :: b → '/' ∉ a → host = a ∧ path = '/' :: b) := by
  have hr : r.length < 2 ^ 31 := by
    have := List.length_append p r
    omega
  refine ⟨r.takeWhile (· ≠ '/'), r.dropWhile (· ≠ '/'), ?_, ?_, ?_, ?_, ?_, ?_⟩
  · rw [splitURL_eq, strip_schemes p r hp h1 h2, splitRest_eq r hr]
  · exact List.takeWhile_append_dropWhile _ r
  · exact not_mem_takeWhile_ne '/' r
  · exact dropWhile_ne_shape '/' r
  · exact takeWhile_dropWhile_of_not_mem '/' r
  · intro a b hab ha
    rw [hab]
    exact takeWhile_dropWhile_of_split '/' a b ha

/-- The contract of claim C1 at the URL `http://a.com/x`. -/
theorem splitURL_contract_witness :
    ¬ "http://".toList <+: "a.com/x".toList ∧ ¬ "https://".toList <+: "a.com/x".toList ∧
    ("http://".toList ++ "a.com/x".toList).length < 2 ^ 31 ∧
    ∃ host path, splitURL ("http://".toList ++ "a.com/x".toList) = .ok (host, path) ∧
      host ++ path = "a.com/x".toList ∧ '/' ∉ host ∧ (path = [] ∨ ∃ rest, path = '/' :: rest) ∧
      ('/' ∉ "a.com/x".toList → host = "a.com/x".toList ∧ path = []) ∧
      (∀ a b, "a.com/x".toList = a ++ '/' :: b → '/' ∉ a → host = a ∧ path = '/' :: b) :=
  ⟨by decide, by decide, by decide,
    splitURL_contract "http://".toList "a.com/x".toList (Or.inr (Or.inl rfl))
      (by decide) (by decide) (by decide)⟩

/-! ### C2: the request message -/

/-- Against claim C2 as stated: for the host and the empty path that `splitURL`
produces from `a.com`, the message built is not `"GET " ++ path ++ ...` with
the request line `GET  HTTP/1.0`; it is sent with the request line
`GET / HTTP/1.0`.  For the host and path produced from `a.com/x` the message
is not `"GET " ++ path ++ ...` either. -/
theorem requestMessage_has_slash :
    splitURL (cstr "a.com".toList) = .ok ("a.com".toList, []) ∧
    requestMessage "a.com".toList =
      .ok "GET / HTTP/1.0\r\nHost: a.com\r\nConnection: close\r\n\r\n".toList ∧
    requestMessage "a.com".toList ≠
      .ok ("GET ".toList ++ [] ++ " HTTP/1.0\r\nHost: ".toList ++ "a.com".toList ++
        "\r\nConnection: close\r\n\r\n".toList) ∧
    splitURL (cstr "a.com/x".toList) = .ok ("a.com".toList, "/x".toList) ∧
    requestMessage "a.com/x".toList ≠
      .ok ("GET ".toList ++ "/x".toList ++ " HTTP/1.0\r\nHost: ".toList ++ "a.com".toList ++
        "\r\nConnection: close\r\n\r\n".toList) := by
  decide

/-- Claim C2, amended: for every host that `splitURL` produces together with an
empty path, the message built by `makeHTTPRequest` is exactly
`"GET / HTTP/1.0\r\nHost: " ++ host ++ "\r\nConnection: close\r\n\r\n"`: the
request line is `GET / HTTP/1.0`, with the slash of the template of line 11.
Nothing is stated about the request line for a path that is not empty. -/
theorem requestMessage_empty_path (url host : Str)
    (h : splitURL (cstr url) = .ok (host, [])) :
    requestMessage url =
      .ok ("GET / HTTP/1.0\r\nHost: ".toList ++ host ++
        "\r\nConnection: close\r\n\r\n".toList) := by
  unfold requestMessage
  rw [h]
  rfl

/-- The amended claim C2 at the URL `a.com`: the host is `a.com`, the path is
empty and the request line is `GET / HTTP/1.0`. -/
theorem requestMessage_empty_path_witness :
    splitURL (cstr "a.com".toList) = .ok ("a.com".toList, []) ∧
    requestMessage "a.com".toList =
      .ok ("GET / HTTP/1.0\r\nHost: ".toList ++ "a.com".toList ++
        "\r\nConnection: close\r\n\r\n".toList) :=
  ⟨by decide, requestMessage_empty_path "a.com".toList "a.com".toList (by decide)⟩

/-! ### C3: the success percentage -/

/-- Claim C3 at 3 successes out of 4 requests: the expression of line 266
divides before it multiplies and yields 0, where `(3 * 100) / 4` is 75; a run
of four requests of which the first fails in `recv` reports 0. -/
theorem successPercentage_three_of_four :
    successPercentage 3 4 = .ok 0 ∧ ((3 : Int) * 100) / 4 = 75 ∧
    (repeatRequests "a.com".toList 4
        (fun i => if i = 0 then resetting 7 else answering 5 "HTTP/1.0 200 OK\r\n\r\n".toList)).map
      (fun report => (report.numRequests, report.percentage)) = .ok (4, 0) := by
  decide

/-! ### C4: the median -/

/-- Claim C4 at the two samples `1073741824, 1073741824` (two requests of about
18 minutes each): both are non-negative `int`s and their truncated average is
`1073741824`, but the sum formed at line 253 is not representable as an `int`;
where the overflow wraps around, the median comes out as `-1073741824`. -/
theorem medianTime_overflow :
    medianTime [1073741824, 1073741824] = .error .signedOverflow ∧
    (1073741824 : Int) ≤ INT_MAX ∧
    ((1073741824 : Int) + 1073741824) / 2 = 1073741824 ∧
    Int.tdiv (toInt (1073741824 + 1073741824)) 2 = -1073741824 := by
  decide

/-! ### C5: the mean -/

/-- Claim C5 at three samples of `800000000` microseconds: each is a
non-negative `int` and the truncated mean is `800000000`, but the `int`
accumulator of line 258 overflows (where the overflow wraps around, the mean
comes out as `-631655765`); the samples `1, 2` give the mean 1. -/
theorem meanTime_overflow :
    meanTime [800000000, 800000000, 800000000] = .error .signedOverflow ∧
    (800000000 : Int) ≤ INT_MAX ∧
    ((800000000 : Int) + 800000000 + 800000000) / 3 = 800000000 ∧
    Int.tdiv (toInt (800000000 + 800000000 + 800000000)) 3 = -631655765 ∧
    meanTime [1, 2] = .ok 1 := by
  decide

/-! ### C6: the error-code set -/

/-- Against claim C6 as stated: a 12-byte response whose bytes at offsets 10 and
11 are NUL is read as the text `HTTP/1.1 4`, and the code recorded is the one
character `4`, not the three characters at offsets 9 to 11. -/
theorem errorCodes_counterexample :
    (requestLoop "a.com".toList (fun _ => answering 5 "HTTP/1.1 4\x00\x00".toList) 0 1
        initialStats).map (fun st => st.errorCodes) = .ok {"4".toList} ∧
    "HTTP/1.1 4\x00\x00".toList.length = 12 ∧
    claimedErrorCodes (fun _ => "HTTP/1.1 4\x00\x00".toList) 1 = {"4\x00\x00".toList} ∧
    ({"4".toList} : Finset Str) ≠ claimedErrorCodes (fun _ => "HTTP/1.1 4\x00\x00".toList) 1 := by
  decide

/-- Claim C6, amended: for every sequence of successfully read responses, each
shorter than the buffer and with a text (the bytes before the first NUL) of at
least 12 characters, the loop runs to its end and the error-code set is exactly
the set of the 3-character substrings at offsets 9 to 11 of those responses
whose character at offset 9 is `4` or `5`. -/
theorem errorCodes_of_run (url : Str) (n : Nat) (net : Nat → Network) (resp : Nat → List Char)
    (hnet : ∀ i, i < n → ∃ servinfo ptr duration, connectFirst servinfo = some ptr ∧
      net i = ⟨some servinfo, duration, .data (resp i)⟩)
    (hlen : ∀ i, i < n → (resp i).length < BUFFERSIZE)
    (htext : ∀ i, i < n → 12 ≤ (cstr (resp i)).length) :
    ∃ st, requestLoop url net 0 n initialStats = .ok st ∧
      st.errorCodes = claimedErrorCodes resp n := by
  obtain ⟨st, hst, hcodes⟩ := requestLoop_codes url net resp n 0 initialStats
    (fun j _ h => hnet j (by omega)) (fun j _ h => hlen j (by omega))
    (fun j _ h => htext j (by omega))
  refine ⟨st, hst, ?_⟩
  ext x
  rw [hcodes x]
  unfold claimedErrorCodes
  simp only [Finset.mem_image, Finset.mem_filter, Finset.mem_range]
  constructor
  · rintro (h | ⟨j, _, h2, h3, h4⟩)
    · simp [initialStats] at h
    · exact ⟨j, ⟨by omega, h3⟩, h4⟩
  · rintro ⟨j, ⟨h1, h2⟩, h3⟩
    exact Or.inr ⟨j, Nat.zero_le j, by omega, h2, h3⟩

/-- The amended claim C6 at two responses that both carry the status `404`: the
set has the single element `404`. -/
theorem errorCodes_of_run_witness :
    (∀ i, i < 2 → ∃ servinfo ptr duration, connectFirst servinfo = some ptr ∧
      (fun _ => answering 5 notFound) i = ⟨some servinfo, duration, .data notFound⟩) ∧
    (∀ i, i < 2 → notFound.length < BUFFERSIZE) ∧
    (∀ i, i < 2 → 12 ≤ (cstr notFound).length) ∧
    claimedErrorCodes (fun _ => notFound) 2 = {"404".toList} ∧
    ({"404".toList} : Finset Str).card = 1 ∧
    ∃ st, requestLoop "a.com".toList (fun _ => answering 5 notFound) 0 2 initialStats = .ok st ∧
      st.errorCodes = claimedErrorCodes (fun _ => notFound) 2 :=
  ⟨fun _ _ => ⟨[⟨true, true⟩], ⟨true, true⟩, 5, rfl, rfl⟩, fun _ _ => by decide,
    fun _ _ => by decide, by decide, by decide,
    errorCodes_of_run "a.com".toList 2 (fun _ => answering 5 notFound) (fun _ => notFound)
      (fun _ _ => ⟨[⟨true, true⟩], ⟨true, true⟩, 5, rfl, rfl⟩)
      (fun _ _ => (by decide : notFound.length < BUFFERSIZE))
      (fun _ _ => (by decide : 12 ≤ (cstr notFound).length))⟩

/-! ### C7: a run without timing samples -/

/-- Claim C7 at `repeat = 3` against a host that cannot be resolved, or whose
only address refuses the connection: the loop leaves no timing sample and no
success, the median then reads the empty vector out of bounds, the mean divides
by zero, and the run ends there without a report. -/
theorem repeatRequests_no_samples :
    (requestLoop "nowhere.invalid".toList (fun _ => unresolvable) 0 3 initialStats).map
      (fun st => (st.successes, st.times)) = .ok (0, []) ∧
    medianTime [] = .error .indexOutOfBounds ∧
    meanTime [] = .error .divideByZero ∧
    repeatRequests "nowhere.invalid".toList 3 (fun _ => unresolvable) =
      .error .indexOutOfBounds ∧
    repeatRequests "nowhere.invalid".toList 3 (fun _ => refusing) =
      .error .indexOutOfBounds := by
  decide

/-! ### C8: short responses -/

/-- Claim C8 at a successful read of 0 bytes and of the 8 bytes `HTTP/1.0`:
`substr(9, 3)` throws `std::out_of_range`, which nothing catches, so the
request does not return and the run does not reach its next iteration. -/
theorem makeHTTPRequest_short_response :
    makeHTTPRequest "a.com".toList (answering 5 []) initialStats = .error .outOfRange ∧
    makeHTTPRequest "a.com".toList (answering 5 "HTTP/1.0".toList) initialStats =
      .error .outOfRange ∧
    repeatRequests "a.com".toList 2
        (fun i => if i = 0 then answering 5 [] else answering 5 "HTTP/1.0 200 OK\r\n\r\n".toList) =
      .error .outOfRange := by
  decide

/-! ### C9: scheme prefixes -/

/-- Against claim C9 as stated: `http://https://a.com/x` gives the host `a.com`
and the path `/x`, not the host `https:` and the path `//a.com/x`. -/
theorem splitURL_strips_both_schemes :
    splitURL "http://https://a.com/x".toList = .ok ("a.com".toList, "/x".toList) ∧
    splitURL "http://https://a.com/x".toList ≠ .ok ("https:".toList, "//a.com/x".toList) := by
  decide

/-- Claim C9, amended: when the input begins with `http://`, host and path are
computed from exactly the input minus its first 7 characters if that remainder
does not begin with `https://`; if it does, those 8 characters are removed as
well and host and path are computed from what follows them. -/
theorem splitURL_after_http (r : Str) (hlen : ("http://".toList ++ r).length < 2 ^ 31) :
    (¬ "https://".toList <+: r →
      splitURL ("http://".toList ++ r) =
        .ok (r.takeWhile (· ≠ '/'), r.dropWhile (· ≠ '/'))) ∧
    (∀ t, r = "https://".toList ++ t →
      splitURL ("http://".toList ++ r) =
        .ok (t.takeWhile (· ≠ '/'), t.dropWhile (· ≠ '/'))) := by
  have e : ("http://".toList ++ r).take 7 = "http://".toList := List.take_left' rfl
  have d : ("http://".toList ++ r).drop 7 = r := List.drop_left' rfl
  have hr : r.length < 2 ^ 31 := by
    have := List.length_append "http://".toList r
    omega
  constructor
  · intro h2
    have n2 : ¬ r.take 8 = "https://".toList := take_ne_of_no_scheme _ r h2
    rw [splitURL_eq, strip_pos _ _ _ e, d, strip_neg _ _ _ n2, splitRest_eq r hr]
  · intro t ht
    have e8 : r.take 8 = "https://".toList := by rw [ht]; exact List.take_left' rfl
    have d8 : r.drop 8 = t := by rw [ht]; exact List.drop_left' rfl
    have hlt : t.length < 2 ^ 31 := by
      have := List.length_append "https://".toList t
      rw [← ht] at this
      omega
    rw [splitURL_eq, strip_pos _ _ _ e, d, strip_pos _ _ _ e8, d8, splitRest_eq t hlt]

/-- The amended claim C9 at `http://https://a.com/x`: host and path are those
of `a.com/x`. -/
theorem splitURL_after_http_witness :
    ("http://".toList ++ "https://a.com/x".toList).length < 2 ^ 31 ∧
    "https://a.com/x".toList = "https://".toList ++ "a.com/x".toList ∧
    splitURL ("http://".toList ++ "https://a.com/x".toList) =
      .ok ("a.com".toList, "/x".toList) :=
  ⟨by decide, by decide,
    (splitURL_after_http "https://a.com/x".toList (by decide)).2 "a.com/x".toList (by decide)⟩

/-! ### C10: the terminating NUL -/

/-- Claim C10 at a read that fills the buffer: `recv` is given `BUFFERSIZE` as
its limit and returns 10000, which is not below `BUFFERSIZE`, so the NUL of
line 212 is stored one past the end of the buffer. -/
theorem makeHTTPRequest_full_buffer :
    (recv (.data (List.replicate 10000 'A')) BUFFERSIZE).1 = 10000 ∧
    ¬ ((10000 : Int) < (BUFFERSIZE : Int)) ∧
    makeHTTPRequest "a.com".toList (answering 5 (List.replicate 10000 'A')) initialStats =
      .error .bufferOverrun := by
  have hlen : BUFFERSIZE ≤ (List.replicate 10000 'A').length := by
    rw [List.length_replicate]; decide
  refine ⟨?_, by decide, ?_⟩
  · rw [recv_full_buffer _ hlen]; rfl
  · have hs : splitURL (cstr "a.com".toList) = .ok ("a.com".toList, []) := by decide
    unfold makeHTTPRequest
    rw [hs]
    simp only [answering]
    show (match recv (.data (List.replicate 10000 'A')) BUFFERSIZE with
      | (bytesReceived, received) => _) = _
    rw [recv_full_buffer _ hlen]
    rfl

end HTTPRequester
